import Mathlib

/-!
Shallow embedding of the agentic-patterns repository (Neural-Maze):
chat-history containers (utils/completions.py), XML-style tag extraction
(utils/extraction.py), tool-argument validation and signature derivation
(tool_pattern/tool.py), the tool-calling agent loop
(tool_pattern/tool_agent.py) and the reflection loop
(reflection_pattern/reflection_agent.py).

Python lists are embedded as Lean lists; `list.pop(i)` raising IndexError
for an out-of-range index is embedded by returning `Except.error` carrying
the (unchanged) contents at the moment the exception is raised.  The
remote LLM (a stochastic API) is embedded as an oracle function from the
chat history sent to the completion returned.
-/

/-- A chat message: the Python dict with role and content keys built by
build_prompt_structure in utils/completions.py. -/
structure Message where
  role : String
  content : String
deriving DecidableEq

/-- Embeds build_prompt_structure (utils/completions.py): when the tag is
nonempty (truthy), the content is wrapped in XML-style tags. -/
def build_prompt_structure (prompt role tag : String) : Message :=
  if tag = "" then { role := role, content := prompt }
  else { role := role, content := "<" ++ tag ++ ">" ++ prompt ++ "</" ++ tag ++ ">" }

variable {α : Type}

/-- Embeds ChatHistory.append (utils/completions.py): if the current
length equals total_length, pop the element at index 0 before appending.
Python pop(0) on an empty list raises IndexError, embedded as an error
carrying the unchanged contents. -/
def ChatHistory.append (total_length : Int) (l : List α) (msg : α) :
    Except (List α) (List α) :=
  if (l.length : Int) = total_length then
    match l with
    | [] => .error l
    | _ :: t => .ok (t ++ [msg])
  else .ok (l ++ [msg])

/-- A sequence of ChatHistory.append calls; the first raised exception
aborts the sequence, as in Python. -/
def ChatHistory.appendAll (total_length : Int) : List α → List α → Except (List α) (List α)
  | l, [] => .ok l
  | l, m :: ms =>
    match ChatHistory.append total_length l m with
    | .ok l2 => ChatHistory.appendAll total_length l2 ms
    | .error e => .error e

/-- Embeds FixedFirstChatHistory.append (utils/completions.py): if the
current length equals total_length, pop the element at index 1 (never
index 0) before appending.  Python pop(1) on a list with fewer than two
elements raises IndexError, embedded as an error carrying the unchanged
contents. -/
def FixedFirstChatHistory.append (total_length : Int) (l : List α) (msg : α) :
    Except (List α) (List α) :=
  if (l.length : Int) = total_length then
    match l with
    | a :: _ :: t => .ok (a :: (t ++ [msg]))
    | _ => .error l
  else .ok (l ++ [msg])

/-- A sequence of FixedFirstChatHistory.append calls; the first raised
exception aborts the sequence, as in Python. -/
def FixedFirstChatHistory.appendAll (total_length : Int) :
    List α → List α → Except (List α) (List α)
  | l, [] => .ok l
  | l, m :: ms =>
    match FixedFirstChatHistory.append total_length l m with
    | .ok l2 => FixedFirstChatHistory.appendAll total_length l2 ms
    | .error e => .error e

/-- Splits a character list around the first occurrence of sep, returning
the part before the occurrence and the part after it, or none when sep
does not occur. -/
def splitFirst (sep : List Char) : List Char → Option (List Char × List Char)
  | [] => if sep.isPrefixOf ([] : List Char) then some ([], ([] : List Char).drop sep.length) else none
  | c :: t =>
    if sep.isPrefixOf (c :: t) then some ([], (c :: t).drop sep.length)
    else
      match splitFirst sep t with
      | some (a, b) => some (c :: a, b)
      | none => none

/-- Fuel-indexed scanner for re.findall over the pattern
open-tag (.*?) close-tag with re.DOTALL: repeatedly take the text after
the first open tag, cut it at the first close tag (non-greedy capture),
and continue after the close tag. -/
def findAllAux (openT closeT : List Char) : Nat → List Char → List (List Char)
  | 0, _ => []
  | fuel + 1, s =>
    match splitFirst openT s with
    | none => []
    | some (_, rest) =>
      match splitFirst closeT rest with
      | none => []
      | some (content, rest2) => content :: findAllAux openT closeT fuel rest2

/-- Embeds re.findall for the tag pattern; since the open tag is nonempty,
every match consumes at least one character, so fuel length + 1 always
suffices. -/
def re_findall (openT closeT : List Char) (s : List Char) : List (List Char) :=
  findAllAux openT closeT (s.length + 1) s

/-- The ASCII whitespace characters removed by Python str.strip(); the
embedding restricts text to ASCII. -/
def isPySpace (c : Char) : Bool :=
  c = ' ' || c = '\t' || c = '\n' || c = '\r' || c = '\x0b' || c = '\x0c'

/-- Embeds Python str.strip(): removes leading and trailing whitespace. -/
def pyStrip (l : List Char) : List Char :=
  ((l.dropWhile isPySpace).reverse.dropWhile isPySpace).reverse

/-- Embeds the TagContentResult dataclass (utils/extraction.py). -/
structure TagContentResult where
  content : List String
  found : Bool
deriving DecidableEq

/-- The literal open tag built by the regex pattern of
extract_tag_content. -/
def openTagOf (tag : String) : List Char :=
  '<' :: (tag.data ++ ['>'])

/-- The literal close tag built by the regex pattern of
extract_tag_content. -/
def closeTagOf (tag : String) : List Char :=
  '<' :: '/' :: (tag.data ++ ['>'])

/-- Embeds extract_tag_content (utils/extraction.py): find all
non-overlapping non-greedy open-tag ... close-tag matches, strip each
captured content, and report whether at least one match was found. -/
def extract_tag_content (text tag : String) : TagContentResult :=
  let matched := re_findall (openTagOf tag) (closeTagOf tag) text.data
  { content := matched.map (fun c => String.mk (pyStrip c)),
    found := !matched.isEmpty }

/-- Whether sub occurs as a contiguous sublist, scanning left to right. -/
def hasSubList (sub : List Char) : List Char → Bool
  | [] => sub.isPrefixOf ([] : List Char)
  | c :: t => sub.isPrefixOf (c :: t) || hasSubList sub t

/-- Embeds the Python substring test (sub in s). -/
def strContainsSub (s sub : String) : Bool :=
  hasSubList sub.data s.data

/-- The literal stop marker checked by ReflectionAgent.run. -/
def okMarker : String := "<OK>"

/-- A Python runtime value in the fragment the tool layer manipulates.
Python bool is a subclass of int, which matters for isinstance below.
IEEE floats are outside the embedding's value universe. -/
inductive PyVal
  | pyInt (n : Int)
  | pyBool (b : Bool)
  | pyStr (s : String)
deriving DecidableEq

/-- Embeds isinstance(value, type_mapping[type_name]) as used by
validate_arguments; isinstance(b, int) is True for a Python bool b. -/
def isInstanceOf (v : PyVal) (ty : String) : Bool :=
  match ty, v with
  | "int", .pyInt _ => true
  | "int", .pyBool _ => true
  | "bool", .pyBool _ => true
  | "str", .pyStr _ => true
  | _, _ => false

/-- Valid tail of a Python int literal after its first digit: single
underscores are allowed strictly between digits. -/
def digitsTail : List Char → Bool
  | [] => true
  | '_' :: c :: rest => c.isDigit && digitsTail rest
  | '_' :: [] => false
  | c :: rest => c.isDigit && digitsTail rest

/-- A nonempty all-digit body with legal underscore separators. -/
def pyDigitBody (l : List Char) : Bool :=
  match l with
  | [] => false
  | c :: rest => c.isDigit && digitsTail rest

/-- Decimal value of a digit list (underscores already removed). -/
def digitsVal (l : List Char) : Nat :=
  l.foldl (fun a c => a * 10 + (c.toNat - 48)) 0

/-- Embeds the Python int(s) constructor on ASCII strings: strip
whitespace, allow an optional sign, then digits with legal underscores;
none embeds the ValueError raised otherwise. -/
def pyIntOfString (s : String) : Option Int :=
  match pyStrip s.data with
  | '+' :: rest =>
    if pyDigitBody rest then some ((digitsVal (rest.filter (fun c => c != '_')) : Int)) else none
  | '-' :: rest =>
    if pyDigitBody rest then some (-(digitsVal (rest.filter (fun c => c != '_')) : Int)) else none
  | body =>
    if pyDigitBody body then some ((digitsVal (body.filter (fun c => c != '_')) : Int)) else none

/-- Embeds the Python str(v) constructor on the modeled values. -/
def pyStrOf : PyVal → String
  | .pyInt n => toString n
  | .pyBool b => if b then "True" else "False"
  | .pyStr s => s

/-- Embeds the Python bool(v) constructor (truthiness). -/
def pyTruthy : PyVal → Bool
  | .pyInt n => n != 0
  | .pyBool b => b
  | .pyStr s => s != ""

/-- Embeds type_mapping[ty](v) in validate_arguments: conversion with the
target type's standard constructor; none embeds the raised conversion
error.  A type name outside the mapping raises KeyError (none); the float
constructor produces an IEEE value outside this embedding, also none. -/
def pyCoerce (ty : String) (v : PyVal) : Option PyVal :=
  match ty with
  | "int" =>
    match v with
    | .pyInt n => some (.pyInt n)
    | .pyBool b => some (.pyInt (if b then 1 else 0))
    | .pyStr s => (pyIntOfString s).map PyVal.pyInt
  | "str" => some (.pyStr (pyStrOf v))
  | "bool" => some (.pyBool (pyTruthy v))
  | _ => none

/-- Embeds validate_arguments (tool_pattern/tool.py) on the arguments
dict (an ordered association list): for each supplied argument look up
its declared type in the signature properties (KeyError, none, when the
name is absent), pass it through unchanged when isinstance matches, and
otherwise convert it with the declared type's constructor. -/
def validate_arguments : List (String × PyVal) → List (String × String) →
    Option (List (String × PyVal))
  | [], _ => some []
  | (nm, v) :: rest, props => do
    let ty ← List.lookup nm props
    let w ← if isInstanceOf v ty then some v else pyCoerce ty v
    let tl ← validate_arguments rest props
    pure ((nm, w) :: tl)

/-- A primitive Python type usable as a parameter annotation in the tool
layer. -/
inductive PyAnnTy
  | tInt
  | tStr
  | tBool
  | tFloat
deriving DecidableEq

/-- The type's name attribute, as read by get_fn_signature. -/
def PyAnnTy.pyName : PyAnnTy → String
  | .tInt => "int"
  | .tStr => "str"
  | .tBool => "bool"
  | .tFloat => "float"

/-- The reflection metadata of a Python callable that get_fn_signature
reads: its declared name, its docstring (None when absent) and its
annotations dict, which may include a return annotation. -/
structure PyFunction where
  name : String
  doc : Option String
  anns : List (String × PyAnnTy)

/-- The schema dict built by get_fn_signature: name, description and the
parameters properties mapping, flattened. -/
structure FnSignature where
  name : String
  description : Option String
  properties : List (String × String)
deriving DecidableEq

/-- Embeds get_fn_signature (tool_pattern/tool.py): name from the
callable's declared name, description from its docstring, and one
properties entry per annotation other than the return annotation, mapping
the parameter to its type's name. -/
def get_fn_signature (fn : PyFunction) : FnSignature :=
  { name := fn.name,
    description := fn.doc,
    properties :=
      (fn.anns.filter (fun kv => kv.1 != "return")).map (fun kv => (kv.1, kv.2.pyName)) }

/-- The literal text of TOOL_SYSTEM_PROMPT (tool_pattern/tool_agent.py)
before the %s placeholder. -/
def TOOL_SYSTEM_PROMPT_head : String :=
  "\nYou are a function calling AI model. You are provided with function signatures within <tools></tools> XML tags.\nYou may call one or more functions to assist with the user query. Don\x27t make assumptions about what values to plug\ninto functions. Pay special attention to the properties \x27types\x27. You should use those types as in a Python dict.\nFor each function call return a json object with function name and arguments within <tool_call></tool_call>\nXML tags as follows:\n\n<tool_call>\n\x7b\"name\": <function-name>, \"arguments\": <args-dict>, \"id\": <monotonically-increasing-id>\x7d\n</tool_call>\n\nHere are the available tools:\n\n<tools>\n"

/-- The literal text of TOOL_SYSTEM_PROMPT after the %s placeholder. -/
def TOOL_SYSTEM_PROMPT_tail : String :=
  "\n</tools>\n"

/-- TOOL_SYSTEM_PROMPT with the concatenated tool signatures substituted
for %s. -/
def toolSystemPromptFor (sigs : String) : String :=
  TOOL_SYSTEM_PROMPT_head ++ sigs ++ TOOL_SYSTEM_PROMPT_tail

/-- The tool-selection chat history built at the start of ToolAgent.run:
the system prompt carrying the tool signatures, then the user message. -/
def toolChatHistoryFor (sigs user_msg : String) : List Message :=
  [build_prompt_structure (toolSystemPromptFor sigs) "system" "",
   build_prompt_structure user_msg "user" ""]

/-- The outcome of ToolAgent.run: the final answer (none embeds an
uncaught exception) and the tool-call payload strings that were executed
(empty when no tool was invoked). -/
structure ToolRunResult where
  answer : Option String
  invoked : List String
deriving DecidableEq

/-- Embeds ToolAgent.run (tool_pattern/tool_agent.py).  The remote model
is the oracle llm from the history sent to the completion returned, and
process abstracts process_tool_calls as the str(observations) text for
the executed tool calls (that branch executes tools; its internals are
not needed by the properties below).  The agent history is a ChatHistory
with the default unbounded capacity -1. -/
def ToolAgent.run (llm : List Message → String) (process : List String → String)
    (sigs user_msg : String) : ToolRunResult :=
  let user_prompt := build_prompt_structure user_msg "user" ""
  let agent_chat_history := [user_prompt]
  let tool_call_response := llm (toolChatHistoryFor sigs user_msg)
  let tool_calls := extract_tag_content tool_call_response "tool_call"
  if tool_calls.found then
    let observations := process tool_calls.content
    match ChatHistory.append (-1) agent_chat_history
        (build_prompt_structure ( "Observation: " ++ observations) "user" "") with
    | .ok h2 => { answer := some (llm h2), invoked := tool_calls.content }
    | .error _ => { answer := none, invoked := tool_calls.content }
  else
    { answer := some (llm agent_chat_history), invoked := [] }

/-- The literal BASE_GENERATION_SYSTEM_PROMPT
(reflection_pattern/reflection_agent.py). -/
def BASE_GENERATION_SYSTEM_PROMPT : String :=
  "\nYour task is to Generate the best content possible for the user\x27s request.\nIf the user provides critique, respond with a revised version of your previous attempt.\nYou must always output the revised content.\n"

/-- The literal BASE_REFLECTION_SYSTEM_PROMPT
(reflection_pattern/reflection_agent.py). -/
def BASE_REFLECTION_SYSTEM_PROMPT : String :=
  "\nYou are tasked with generating critique and recommendations to the user\x27s generated content.\nIf the user content has something wrong or something to be improved, output a list of recommendations\nand critiques. If the user content is ok and there\x27s nothing to change, output this: <OK>\n"

/-- The generator's initial FixedFirstChatHistory in ReflectionAgent.run:
custom system prompt with the base generation prompt appended, then the
user message. -/
def genHistoryInit (gen_sys user_msg : String) : List Message :=
  [build_prompt_structure (gen_sys ++ BASE_GENERATION_SYSTEM_PROMPT) "system" "",
   build_prompt_structure user_msg "user" ""]

/-- The reflector's initial FixedFirstChatHistory in ReflectionAgent.run:
only its system prompt. -/
def reflHistoryInit (refl_sys : String) : List Message :=
  [build_prompt_structure (refl_sys ++ BASE_REFLECTION_SYSTEM_PROMPT) "system" ""]

/-- The observable trace of a ReflectionAgent.run call: every draft the
generator produced, every critique the reflector produced, the returned
draft (none embeds an uncaught exception, including the NameError when
the loop body never ran), whether an exception was raised, and the number
of loop iterations entered. -/
structure ReflectionTrace where
  drafts : List String
  critiques : List String
  result : Option String
  raised : Bool
  iters : Nat
deriving DecidableEq

/-- Embeds the loop body of ReflectionAgent.run: generate, record the
draft in both histories (capacity 3, first entry protected), critique,
stop when the critique contains the stop marker, otherwise record the
critique in both histories and continue. -/
def reflectionLoop (llm : List Message → String) :
    Nat → List Message → List Message → ReflectionTrace
  | 0, _, _ => { drafts := [], critiques := [], result := none, raised := false, iters := 0 }
  | n + 1, genH, reflH =>
    let generation := llm genH
    match FixedFirstChatHistory.append 3 genH (build_prompt_structure generation "assistant" ""),
          FixedFirstChatHistory.append 3 reflH (build_prompt_structure generation "user" "") with
    | .ok genH1, .ok reflH1 =>
      let critique := llm reflH1
      if strContainsSub critique okMarker then
        { drafts := [generation], critiques := [critique],
          result := some generation, raised := false, iters := 1 }
      else
        match FixedFirstChatHistory.append 3 genH1 (build_prompt_structure critique "user" ""),
              FixedFirstChatHistory.append 3 reflH1 (build_prompt_structure critique "assistant" "") with
        | .ok genH2, .ok reflH2 =>
          let t := reflectionLoop llm n genH2 reflH2
          { drafts := generation :: t.drafts, critiques := critique :: t.critiques,
            result := if t.raised then none else some (t.result.getD generation),
            raised := t.raised, iters := t.iters + 1 }
        | _, _ =>
          { drafts := [generation], critiques := [critique],
            result := none, raised := true, iters := 1 }
    | _, _ =>
      { drafts := [generation], critiques := [],
        result := none, raised := true, iters := 0 }

/-- Embeds ReflectionAgent.run (reflection_pattern/reflection_agent.py):
range(n_steps) runs the body max(n_steps, 0) times over the two
histories; the function returns the generation variable, unbound when the
body never ran (NameError, embedded as result none). -/
def ReflectionAgent.run (llm : List Message → String)
    (user_msg gen_sys refl_sys : String) (n_steps : Int) : ReflectionTrace :=
  reflectionLoop llm n_steps.toNat (genHistoryInit gen_sys user_msg) (reflHistoryInit refl_sys)

/-- Concrete message used by witnesses. -/
def msgSys : Message := { role := "system", content := "You are a helpful assistant" }

/-- Concrete message used by witnesses. -/
def msgA : Message := { role := "user", content := "Hello!" }

/-- Concrete message used by witnesses. -/
def msgB : Message := { role := "assistant", content := "Hi there!" }

/-- Concrete message used by witnesses. -/
def msgC : Message := { role := "user", content := "How are you?" }

/-- Oracle whose first (tool-selection) completion differs from its
second (agent) completion: the tool history has two messages, the agent
history fewer. -/
def llmTwoPhase : List Message → String :=
  fun h => if h.length = 2 then "first response" else "second response"

/-- Oracle answering with fixed text containing no tool_call span. -/
def llmPlain : List Message → String := fun _ => "a plain answer"

/-- Trivial stand-in for process_tool_calls; never reached in the
properties below. -/
def processNone : List String → String := fun _ => ""

/-- Concrete callable metadata used by witnesses: an add function with
two annotated int parameters and a return annotation. -/
def exampleAddFn : PyFunction :=
  { name := "add", doc := some "Add two numbers",
    anns := [( "a", .tInt), ( "b", .tInt), ( "return", .tInt)] }

/-- Oracle whose every completion contains the stop marker. -/
def llmAlwaysOK : List Message → String := fun _ => "Looks good. <OK>"

/-- Oracle whose completions never contain the stop marker. -/
def llmNeverOK : List Message → String := fun _ => "keep revising"

/-- One protected append with capacity at least 2 on a nonempty history
succeeds and keeps the head. -/
lemma ff_append_head (N : Int) (hN : 2 ≤ N) (l : List α) (hl : l ≠ []) (m : α) :
    ∃ l2, FixedFirstChatHistory.append N l m = .ok l2 ∧ l2.head? = l.head? ∧ l2 ≠ [] := by
  unfold FixedFirstChatHistory.append
  by_cases h : (l.length : Int) = N
  · rw [if_pos h]
    have hlen : 2 ≤ l.length := by omega
    rcases l with _ | ⟨a, _ | ⟨b, t⟩⟩
    · simp at hlen
    · simp at hlen
    · exact ⟨a :: (t ++ [m]), rfl, rfl, by simp⟩
  · rw [if_neg h]
    refine ⟨l ++ [m], rfl, ?_, by simp⟩
    rcases l with _ | ⟨a, t⟩
    · exact absurd rfl hl
    · rfl

/-- Unfolding step for a successful plain append at the head of a
sequence. -/
lemma ch_appendAll_cons_ok {N : Int} {l l2 : List α} {m : α} (ms : List α)
    (h : ChatHistory.append N l m = .ok l2) :
    ChatHistory.appendAll N l (m :: ms) = ChatHistory.appendAll N l2 ms := by
  have e1 : ChatHistory.appendAll N l (m :: ms)
      = match ChatHistory.append N l m with
        | .ok lnext => ChatHistory.appendAll N lnext ms
        | .error x => .error x := rfl
  rw [e1, h]

/-- Unfolding step for a successful protected append at the head of a
sequence. -/
lemma ff_appendAll_cons_ok {N : Int} {l l2 : List α} {m : α} (ms : List α)
    (h : FixedFirstChatHistory.append N l m = .ok l2) :
    FixedFirstChatHistory.appendAll N l (m :: ms) = FixedFirstChatHistory.appendAll N l2 ms := by
  have e1 : FixedFirstChatHistory.appendAll N l (m :: ms)
      = match FixedFirstChatHistory.append N l m with
        | .ok lnext => FixedFirstChatHistory.appendAll N lnext ms
        | .error x => .error x := rfl
  rw [e1, h]

/-- Appending never raises when the equal-length branch cannot arise. -/
lemma ch_append_unbounded (msgs : List α) :
    ∀ l : List α, ChatHistory.appendAll (-1) l msgs = .ok (l ++ msgs) := by
  induction msgs with
  | nil => intro l; simp [ChatHistory.appendAll]
  | cons m ms ih =>
    intro l
    have happ : ChatHistory.append (-1) l m = .ok (l ++ [m]) := by
      unfold ChatHistory.append
      rw [if_neg (by omega)]
    rw [ch_appendAll_cons_ok ms happ, ih]
    simp

/-- Sliding-window lemma for the plain bounded history: starting within
capacity, a sequence of appends succeeds and retains exactly the last N
elements of seed-plus-appended. -/
lemma ch_window (N : Nat) (hN : 1 ≤ N) (msgs : List α) :
    ∀ l : List α, l.length ≤ N →
      ChatHistory.appendAll (N : Int) l msgs
        = .ok ((l ++ msgs).drop ((l ++ msgs).length - N)) := by
  induction msgs with
  | nil =>
    intro l hl
    have : l.length - N = 0 := by omega
    simp [ChatHistory.appendAll, this]
  | cons m ms ih =>
    intro l hl
    by_cases hc : l.length = N
    · rcases l with _ | ⟨a, t⟩
      · simp at hc; omega
      · have happ : ChatHistory.append (N : Int) (a :: t) m = .ok (t ++ [m]) := by
          unfold ChatHistory.append
          rw [if_pos (by exact_mod_cast hc)]
        rw [ch_appendAll_cons_ok ms happ, ih (t ++ [m]) (by simp at hc ⊢; omega)]
        congr 1
        have ht : t.length + 1 = N := by simpa using hc
        have h2 : (t ++ [m]) ++ ms = t ++ m :: ms := by simp
        rw [h2]
        have h3 : (t ++ m :: ms).length - N = ms.length := by simp; omega
        have h4 : ((a :: t) ++ m :: ms) = a :: (t ++ m :: ms) := by simp
        rw [h3, h4]
        have h5 : (a :: (t ++ m :: ms)).length - N = ms.length + 1 := by simp; omega
        rw [h5, List.drop_succ_cons]
    · have happ : ChatHistory.append (N : Int) l m = .ok (l ++ [m]) := by
        unfold ChatHistory.append
        rw [if_neg (by intro hq; exact hc (by exact_mod_cast hq))]
      rw [ch_appendAll_cons_ok ms happ, ih (l ++ [m]) (by simp; omega)]
      congr 2 <;> simp

/-- Claim C2: for the first-entry-protected history with capacity N at
least 2 and a nonempty initial message list, every sequence of appends
succeeds and the element at position 0 stays the originally-seeded first
element. -/
theorem fixedFirst_preserves_seed (N : Int) (init msgs : List Message)
    (hN : 2 ≤ N) (h0 : init ≠ []) :
    ∃ final, FixedFirstChatHistory.appendAll N init msgs = .ok final ∧
      final.head? = init.head? ∧ final ≠ [] := by
  induction msgs generalizing init with
  | nil => exact ⟨init, rfl, rfl, h0⟩
  | cons m ms ih =>
    obtain ⟨l2, h2, hh, hne⟩ := ff_append_head N hN init h0 m
    obtain ⟨final, hf, hfh, hfe⟩ := ih l2 hne
    refine ⟨final, ?_, by rw [hfh, hh], hfe⟩
    rw [ff_appendAll_cons_ok ms h2]
    exact hf

/-- Witness for C2 at capacity 2 with one seeded message and two
appends. -/
theorem fixedFirst_preserves_seed_witness :
    ∃ final, FixedFirstChatHistory.appendAll 2 [msgSys] [msgA, msgB] = .ok final ∧
      final.head? = ([msgSys] : List Message).head? ∧ final ≠ [] :=
  fixedFirst_preserves_seed 2 [msgSys] [msgA, msgB] (by decide) (by decide)

/-- Claim C3 (amended to capacity at least 1): every intermediate length
is bounded by N; once the appends outnumber N the retained elements are
exactly the most recent N appended, in order; capacity -1 never
evicts. -/
theorem chatHistory_window_spec (N : Nat) (msgs : List Message) (hN : 1 ≤ N) :
    (∀ i, ∃ st, ChatHistory.appendAll (N : Int) [] (msgs.take i) = .ok st ∧ st.length ≤ N) ∧
    (N < msgs.length →
      ChatHistory.appendAll (N : Int) [] msgs = .ok (msgs.drop (msgs.length - N)) ∧
      (msgs.drop (msgs.length - N)).length = N) ∧
    (∀ (l ms : List Message), ChatHistory.appendAll (-1) l ms = .ok (l ++ ms)) := by
  refine ⟨?_, ?_, fun l ms => ch_append_unbounded ms l⟩
  · intro i
    refine ⟨(msgs.take i).drop ((msgs.take i).length - N), ?_, by rw [List.length_drop]; omega⟩
    have := ch_window N hN (msgs.take i) [] (by simp)
    simpa using this
  · intro hlen
    have := ch_window N hN msgs [] (by simp)
    simp at this
    exact ⟨this, by simp; omega⟩

/-- Counterexample to C3 as stated: with capacity 0 the very first append
finds the container at capacity, and pop(0) on the empty list raises
IndexError rather than retaining the most recent 0 messages. -/
theorem chatHistory_capacity_zero_raises :
    ChatHistory.appendAll (0 : Int) ([] : List Message) [msgA] = .error [] ∧
    ¬ ∃ final, ChatHistory.appendAll (0 : Int) ([] : List Message) [msgA] = .ok final := by
  refine ⟨rfl, ?_⟩
  rintro ⟨f, hf⟩
  rw [show ChatHistory.appendAll (0 : Int) ([] : List Message) [msgA] = .error [] from rfl] at hf
  exact Except.noConfusion hf

/-- Witness for the amended C3 at capacity 1 with three appends. -/
theorem chatHistory_window_spec_witness :
    ChatHistory.appendAll ((1 : Nat) : Int) [] [msgA, msgB, msgC]
      = .ok ([msgA, msgB, msgC].drop ([msgA, msgB, msgC].length - 1)) ∧
    ([msgA, msgB, msgC].drop ([msgA, msgB, msgC].length - 1)).length = 1 :=
  (chatHistory_window_spec 1 [msgA, msgB, msgC] (by decide)).2.1 (by decide)

/-- Claim C8: with capacity at most 1, a protected append at capacity
attempts pop(1), which is out of range: it raises IndexError with the
contents unchanged (carried by the error) and nothing appended. -/
theorem fixedFirst_small_capacity_raises (N : Int) (l : List Message) (m : Message)
    (hN : N ≤ 1) (hlen : (l.length : Int) = N) :
    FixedFirstChatHistory.append N l m = .error l := by
  unfold FixedFirstChatHistory.append
  rw [if_pos hlen]
  have hs : l.length ≤ 1 := by omega
  rcases l with _ | ⟨a, _ | ⟨b, t⟩⟩
  · rfl
  · rfl
  · simp at hs

/-- Witness for C8 at capacity 1 holding exactly one message. -/
theorem fixedFirst_small_capacity_raises_witness :
    FixedFirstChatHistory.append 1 [msgA] msgB = .error [msgA] :=
  fixedFirst_small_capacity_raises 1 [msgA] msgB (by decide) (by decide)

/-- Claim C10: with n_steps at most 0 the loop body never runs and the
return statement reads an unassigned variable, so no draft is returned
(embedded as result none); a draft is returned only when n_steps is at
least 1. -/
theorem reflection_no_steps_raises (llm : List Message → String) (u g r : String) (n : Int) :
    (n ≤ 0 → (ReflectionAgent.run llm u g r n).result = none ∧
      (ReflectionAgent.run llm u g r n).iters = 0) ∧
    (∀ d, (ReflectionAgent.run llm u g r n).result = some d → 1 ≤ n) := by
  constructor
  · intro hn
    have h0 : n.toNat = 0 := by omega
    unfold ReflectionAgent.run
    rw [h0]
    exact ⟨rfl, rfl⟩
  · intro d hd
    by_contra hlt
    push_neg at hlt
    have h0 : n.toNat = 0 := by omega
    unfold ReflectionAgent.run at hd
    rw [h0] at hd
    simp [reflectionLoop] at hd

/-- Witness for C10 with zero steps. -/
theorem reflection_no_steps_raises_witness :
    (ReflectionAgent.run llmNeverOK "q" "" "" 0).result = none ∧
    (ReflectionAgent.run llmNeverOK "q" "" "" 0).iters = 0 :=
  (reflection_no_steps_raises llmNeverOK "q" "" "" 0).1 (by decide)

/-- Claim C7: with declared type int, the supplied text is converted with
the int constructor (so text 5 becomes the integer 5, and non-numeric
text raises a conversion error rather than being swallowed), while any
supplied value already matching its declared type passes through
unchanged. -/
theorem validate_arguments_int_coercion (nm : String) :
    validate_arguments [(nm, PyVal.pyStr "5")] [(nm, "int")] = some [(nm, PyVal.pyInt 5)] ∧
    validate_arguments [(nm, PyVal.pyStr "abc")] [(nm, "int")] = none ∧
    (∀ (args : List (String × PyVal)) (props : List (String × String)),
      (∀ p ∈ args, ∃ ty, List.lookup p.1 props = some ty ∧ isInstanceOf p.2 ty = true) →
      validate_arguments args props = some args) := by
  have hl : ∀ s : String, List.lookup nm [(nm, s)] = some s := fun s => by simp [List.lookup]
  refine ⟨?_, ?_, ?_⟩
  · have hni : isInstanceOf (PyVal.pyStr "5") "int" = false := rfl
    have hco : pyCoerce "int" (PyVal.pyStr "5") = some (PyVal.pyInt 5) := by decide
    simp [validate_arguments, hl, hni, hco]
  · have hni : isInstanceOf (PyVal.pyStr "abc") "int" = false := rfl
    have hco : pyCoerce "int" (PyVal.pyStr "abc") = none := by decide
    simp [validate_arguments, hl, hni, hco]
  · intro args props h
    induction args with
    | nil => rfl
    | cons p rest ih =>
      obtain ⟨ty, hlk, hi⟩ := h p (by simp)
      obtain ⟨pn, pv⟩ := p
      simp only at hlk hi
      simp [validate_arguments, hlk, hi, ih (fun q hq => h q (by simp [hq]))]

/-- Witness for C7: text 5 converts to the integer 5, and a value already
of the declared type passes through unchanged. -/
theorem validate_arguments_int_coercion_witness :
    validate_arguments [( "a", PyVal.pyStr "5")] [( "a", "int")] = some [( "a", PyVal.pyInt 5)] ∧
    validate_arguments [( "b", PyVal.pyInt 7)] [( "b", "int")] = some [( "b", PyVal.pyInt 7)] := by
  refine ⟨(validate_arguments_int_coercion "a").1, ?_⟩
  refine (validate_arguments_int_coercion "a").2.2 [( "b", PyVal.pyInt 7)] [( "b", "int")] ?_
  intro p hp
  rw [List.mem_singleton] at hp
  subst hp
  exact ⟨ "int", by simp [List.lookup], by decide⟩

/-- The parameter names of the derived schema are the annotation keys
with the return annotation removed, in order. -/
lemma props_keys (anns : List (String × PyAnnTy)) :
    ((anns.filter (fun kv => kv.1 != "return")).map
        (fun kv => (kv.1, kv.2.pyName))).map Prod.fst
      = (anns.map Prod.fst).filter (fun k => k != "return") := by
  induction anns with
  | nil => rfl
  | cons kv rest ih =>
    by_cases h : kv.1 = "return"
    · simp [List.filter_cons, bne_iff_ne, h, ih]
    · simp [List.filter_cons, bne_iff_ne, h, ih]

/-- Claim C9: the derived schema carries the callable's declared name and
its (possibly absent) docstring, its parameter list is exactly the
annotation keys minus the return annotation in order, each parameter maps
to the name of its annotated type, and every recorded type name comes
from the fixed primitive set. -/
theorem get_fn_signature_spec (fn : PyFunction) :
    (get_fn_signature fn).name = fn.name ∧
    (get_fn_signature fn).description = fn.doc ∧
    (get_fn_signature fn).properties.map Prod.fst
      = (fn.anns.map Prod.fst).filter (fun k => k != "return") ∧
    "return" ∉ (get_fn_signature fn).properties.map Prod.fst ∧
    (∀ p ty, (p, ty) ∈ fn.anns → p ≠ "return" →
      (p, ty.pyName) ∈ (get_fn_signature fn).properties) ∧
    (∀ p t, (p, t) ∈ (get_fn_signature fn).properties →
      t ∈ ([ "int", "str", "bool", "float"] : List String)) := by
  refine ⟨rfl, rfl, props_keys fn.anns, ?_, ?_, ?_⟩
  · intro hmem
    rw [show (get_fn_signature fn).properties.map Prod.fst
        = (fn.anns.map Prod.fst).filter (fun k => k != "return") from props_keys fn.anns] at hmem
    have := List.of_mem_filter hmem
    simp at this
  · intro p ty hmem hne
    exact List.mem_map_of_mem _ (List.mem_filter_of_mem hmem (by simp [bne_iff_ne, hne]))
  · intro p t hmem
    simp only [get_fn_signature, List.mem_map] at hmem
    obtain ⟨kv, hkv, heq⟩ := hmem
    rw [Prod.ext_iff] at heq
    obtain ⟨h1, h2⟩ := heq
    simp only at h1 h2
    rw [← h2]
    cases kv.2 <;> simp [PyAnnTy.pyName]

/-- Witness for C9 on a concrete callable with a return annotation. -/
theorem get_fn_signature_spec_witness :
    (get_fn_signature exampleAddFn).name = exampleAddFn.name ∧
    ( "a", "int") ∈ (get_fn_signature exampleAddFn).properties ∧
    "return" ∉ (get_fn_signature exampleAddFn).properties.map Prod.fst :=
  ⟨(get_fn_signature_spec exampleAddFn).1,
   (get_fn_signature_spec exampleAddFn).2.2.2.2.1 "a" PyAnnTy.tInt (by decide) (by decide),
   (get_fn_signature_spec exampleAddFn).2.2.2.1⟩

/-- Claim C1 (amended): when the first completion contains no tool_call
span, the run invokes no tool, and the final answer is a second
completion over the agent history holding only the user message (not the
first completion itself). -/
theorem toolAgent_direct_answer (llm : List Message → String) (process : List String → String)
    (sigs user_msg : String)
    (h : (extract_tag_content (llm (toolChatHistoryFor sigs user_msg)) "tool_call").found = false) :
    (ToolAgent.run llm process sigs user_msg).invoked = [] ∧
    (ToolAgent.run llm process sigs user_msg).answer
      = some (llm [build_prompt_structure user_msg "user" ""]) := by
  refine ⟨?_, ?_⟩ <;> simp [ToolAgent.run, h]

/-- Counterexample to C1 as stated: an oracle whose tool-selection
completion (two-message history) differs from its agent completion
(one-message history).  The first completion has no tool_call span and no
tool is invoked, yet the returned answer is not that first completion. -/
theorem toolAgent_not_verbatim :
    (extract_tag_content (llmTwoPhase (toolChatHistoryFor "" "q")) "tool_call").found = false ∧
    (ToolAgent.run llmTwoPhase processNone "" "q").invoked = [] ∧
    (ToolAgent.run llmTwoPhase processNone "" "q").answer
      ≠ some (llmTwoPhase (toolChatHistoryFor "" "q")) :=
  ⟨by decide, by decide, by decide⟩

/-- Witness for the amended C1 with a fixed no-tool completion. -/
theorem toolAgent_direct_answer_witness :
    (ToolAgent.run llmPlain processNone "" "q").invoked = [] ∧
    (ToolAgent.run llmPlain processNone "" "q").answer
      = some (llmPlain [build_prompt_structure "q" "user" ""]) :=
  toolAgent_direct_answer llmPlain processNone "" "q" (by decide)

/-- A protected append with capacity 3 always succeeds: at capacity the
list has three elements, so pop(1) is in range. -/
lemma ff_append3_ok (l : List Message) (m : Message) :
    ∃ l2, FixedFirstChatHistory.append 3 l m = .ok l2 := by
  unfold FixedFirstChatHistory.append
  by_cases h : (l.length : Int) = 3
  · rw [if_pos h]
    have h2 : 2 ≤ l.length := by omega
    rcases l with _ | ⟨a, _ | ⟨b, t⟩⟩
    · simp at h2
    · simp at h2
    · exact ⟨_, rfl⟩
  · rw [if_neg h]
    exact ⟨_, rfl⟩

/-- Unfolding of one reflection iteration that finds the stop marker. -/
lemma reflectionLoop_succ_stops (llm : List Message → String) (n : Nat)
    (genH reflH genH1 reflH1 : List Message)
    (hg : FixedFirstChatHistory.append 3 genH
        (build_prompt_structure (llm genH) "assistant" "") = .ok genH1)
    (hr : FixedFirstChatHistory.append 3 reflH
        (build_prompt_structure (llm genH) "user" "") = .ok reflH1)
    (hstop : strContainsSub (llm reflH1) okMarker = true) :
    reflectionLoop llm (n + 1) genH reflH
      = { drafts := [llm genH], critiques := [llm reflH1],
          result := some (llm genH), raised := false, iters := 1 } := by
  simp only [reflectionLoop]
  simp only [hg, hr]
  simp [hstop]

/-- Unfolding of one reflection iteration that does not find the stop
marker and continues. -/
lemma reflectionLoop_succ_continue (llm : List Message → String) (n : Nat)
    (genH reflH genH1 reflH1 genH2 reflH2 : List Message)
    (hg : FixedFirstChatHistory.append 3 genH
        (build_prompt_structure (llm genH) "assistant" "") = .ok genH1)
    (hr : FixedFirstChatHistory.append 3 reflH
        (build_prompt_structure (llm genH) "user" "") = .ok reflH1)
    (hnostop : strContainsSub (llm reflH1) okMarker = false)
    (hg2 : FixedFirstChatHistory.append 3 genH1
        (build_prompt_structure (llm reflH1) "user" "") = .ok genH2)
    (hr2 : FixedFirstChatHistory.append 3 reflH1
        (build_prompt_structure (llm reflH1) "assistant" "") = .ok reflH2) :
    reflectionLoop llm (n + 1) genH reflH
      = { drafts := llm genH :: (reflectionLoop llm n genH2 reflH2).drafts,
          critiques := llm reflH1 :: (reflectionLoop llm n genH2 reflH2).critiques,
          result := if (reflectionLoop llm n genH2 reflH2).raised then none
            else some ((reflectionLoop llm n genH2 reflH2).result.getD (llm genH)),
          raised := (reflectionLoop llm n genH2 reflH2).raised,
          iters := (reflectionLoop llm n genH2 reflH2).iters + 1 } := by
  simp only [reflectionLoop]
  simp only [hg, hr]
  simp only [hnostop]
  simp only [hg2, hr2]
  simp

/-- When no occurring critique contains the stop marker, the reflection
loop completes all its steps without raising, produces one draft per
step, and its result is the last draft. -/
lemma reflectionLoop_no_marker (llm : List Message → String) (n : Nat) :
    ∀ genH reflH : List Message,
      (∀ c ∈ (reflectionLoop llm n genH reflH).critiques, strContainsSub c okMarker = false) →
      (reflectionLoop llm n genH reflH).iters = n ∧
      (reflectionLoop llm n genH reflH).raised = false ∧
      (reflectionLoop llm n genH reflH).drafts.length = n ∧
      (reflectionLoop llm n genH reflH).result = (reflectionLoop llm n genH reflH).drafts.getLast? := by
  induction n with
  | zero => exact fun genH reflH _ => ⟨rfl, rfl, rfl, rfl⟩
  | succ m ih =>
    intro genH reflH h
    obtain ⟨genH1, hg⟩ := ff_append3_ok genH _
    obtain ⟨reflH1, hr⟩ := ff_append3_ok reflH _
    by_cases hstop : strContainsSub (llm reflH1) okMarker = true
    · have heq := reflectionLoop_succ_stops llm m genH reflH genH1 reflH1 hg hr hstop
      have hmem : llm reflH1 ∈ (reflectionLoop llm (m + 1) genH reflH).critiques := by
        rw [heq]; simp
      simp [h _ hmem] at hstop
    · have hnostop : strContainsSub (llm reflH1) okMarker = false := by simpa using hstop
      obtain ⟨genH2, hg2⟩ := ff_append3_ok genH1 _
      obtain ⟨reflH2, hr2⟩ := ff_append3_ok reflH1 _
      have heq := reflectionLoop_succ_continue llm m genH reflH genH1 reflH1 genH2 reflH2
        hg hr hnostop hg2 hr2
      have hsub : ∀ c ∈ (reflectionLoop llm m genH2 reflH2).critiques,
          strContainsSub c okMarker = false := by
        intro c hc
        apply h
        rw [heq]
        simp [hc]
      obtain ⟨hi, hraise, hlen, hres⟩ := ih genH2 reflH2 hsub
      rw [heq]
      refine ⟨by simp [hi], by simp [hraise], by simp [hlen], ?_⟩
      rcases hd : (reflectionLoop llm m genH2 reflH2).drafts with _ | ⟨d, ds⟩
      · rw [hd] at hres
        simp [hraise, hres, hd]
      · rcases hx : (d :: ds).getLast? with _ | x
        · simp at hx
        · rw [hd] at hres
          rw [hx] at hres
          simp [hraise, hres, hd, hx]

/-- Claim C4: with at least one step and a critic that always returns the
stop marker, the reflection loop terminates after exactly one iteration
and returns the first draft. -/
theorem reflection_stops_on_marker (llm : List Message → String) (u g r : String) (n : Int)
    (hn : 1 ≤ n)
    (h : ∀ c ∈ (ReflectionAgent.run llm u g r n).critiques, strContainsSub c okMarker = true) :
    (ReflectionAgent.run llm u g r n).iters = 1 ∧
    (ReflectionAgent.run llm u g r n).raised = false ∧
    (ReflectionAgent.run llm u g r n).result = some (llm (genHistoryInit g u)) ∧
    (ReflectionAgent.run llm u g r n).result = (ReflectionAgent.run llm u g r n).drafts.head? := by
  obtain ⟨m, hm⟩ : ∃ m, n.toNat = m + 1 := ⟨n.toNat - 1, by omega⟩
  unfold ReflectionAgent.run at h ⊢
  rw [hm] at h ⊢
  obtain ⟨genH1, hg⟩ := ff_append3_ok (genHistoryInit g u) _
  obtain ⟨reflH1, hr⟩ := ff_append3_ok (reflHistoryInit r) _
  by_cases hstop : strContainsSub (llm reflH1) okMarker = true
  · rw [reflectionLoop_succ_stops llm m _ _ genH1 reflH1 hg hr hstop]
    exact ⟨rfl, rfl, rfl, rfl⟩
  · have hnostop : strContainsSub (llm reflH1) okMarker = false := by simpa using hstop
    obtain ⟨genH2, hg2⟩ := ff_append3_ok genH1 _
    obtain ⟨reflH2, hr2⟩ := ff_append3_ok reflH1 _
    have heq := reflectionLoop_succ_continue llm m _ _ genH1 reflH1 genH2 reflH2
      hg hr hnostop hg2 hr2
    have hmem : llm reflH1
        ∈ (reflectionLoop llm (m + 1) (genHistoryInit g u) (reflHistoryInit r)).critiques := by
      rw [heq]; simp
    rw [h _ hmem] at hnostop
    simp at hnostop

/-- Witness for C4 with an always-satisfied critic and five steps. -/
theorem reflection_stops_on_marker_witness :
    (ReflectionAgent.run llmAlwaysOK "q" "" "" 5).iters = 1 ∧
    (ReflectionAgent.run llmAlwaysOK "q" "" "" 5).raised = false ∧
    (ReflectionAgent.run llmAlwaysOK "q" "" "" 5).result = some (llmAlwaysOK (genHistoryInit "" "q")) ∧
    (ReflectionAgent.run llmAlwaysOK "q" "" "" 5).result
      = (ReflectionAgent.run llmAlwaysOK "q" "" "" 5).drafts.head? :=
  reflection_stops_on_marker llmAlwaysOK "q" "" "" 5 (by decide) (by decide)

/-- Claim C5: with a critic that never returns the stop marker, the loop
performs exactly n_steps iterations and the run returns the draft of the
final iteration. -/
theorem reflection_runs_all_steps (llm : List Message → String) (u g r : String) (n : Int)
    (hn : 1 ≤ n)
    (h : ∀ c ∈ (ReflectionAgent.run llm u g r n).critiques, strContainsSub c okMarker = false) :
    ((ReflectionAgent.run llm u g r n).iters : Int) = n ∧
    (ReflectionAgent.run llm u g r n).raised = false ∧
    (ReflectionAgent.run llm u g r n).drafts.length = n.toNat ∧
    (ReflectionAgent.run llm u g r n).result = (ReflectionAgent.run llm u g r n).drafts.getLast? := by
  unfold ReflectionAgent.run at h ⊢
  obtain ⟨h1, h2, h3, h4⟩ :=
    reflectionLoop_no_marker llm n.toNat (genHistoryInit g u) (reflHistoryInit r) h
  exact ⟨by rw [h1]; omega, h2, h3, h4⟩

/-- Witness for C5 with a never-satisfied critic and three steps. -/
theorem reflection_runs_all_steps_witness :
    ((ReflectionAgent.run llmNeverOK "q" "" "" 3).iters : Int) = 3 ∧
    (ReflectionAgent.run llmNeverOK "q" "" "" 3).raised = false ∧
    (ReflectionAgent.run llmNeverOK "q" "" "" 3).drafts.length = (3 : Int).toNat ∧
    (ReflectionAgent.run llmNeverOK "q" "" "" 3).result
      = (ReflectionAgent.run llmNeverOK "q" "" "" 3).drafts.getLast? :=
  reflection_runs_all_steps llmNeverOK "q" "" "" 3 (by decide) (by decide)

/-- Boolean head-matching test characterized by an explicit
decomposition of the longer list. -/
lemma isPrefixOf_true_exists : ∀ p l : List Char, p.isPrefixOf l = true ↔ ∃ r, p ++ r = l := by
  intro p
  induction p with
  | nil => intro l; simp [List.isPrefixOf]
  | cons a as ih =>
    intro l
    cases l with
    | nil => simp [List.isPrefixOf]
    | cons b bs =>
      simp only [List.isPrefixOf, Bool.and_eq_true, beq_iff_eq, ih bs, List.cons_append]
      constructor
      · rintro ⟨hab, r, hr⟩
        exact ⟨r, by rw [hab, hr]⟩
      · rintro ⟨r, hr⟩
        injection hr with h1 h2
        exact ⟨h1, r, h2⟩

/-- Soundness of the first-occurrence split: a successful split
decomposes the input around the separator. -/
lemma splitFirst_sound (sep : List Char) :
    ∀ s a b : List Char, splitFirst sep s = some (a, b) → s = a ++ sep ++ b := by
  intro s
  induction s with
  | nil =>
    intro a b h
    simp only [splitFirst] at h
    by_cases hp : sep.isPrefixOf ([] : List Char) = true
    · rw [if_pos hp] at h
      simp only [List.drop_nil, Option.some.injEq, Prod.mk.injEq] at h
      obtain ⟨ha, hb⟩ := h
      obtain ⟨r0, hr0⟩ := (isPrefixOf_true_exists sep []).mp hp
      have hsep : sep = [] := (List.append_eq_nil.mp hr0).1
      subst hsep
      simp [← ha, ← hb]
    · rw [if_neg hp] at h
      exact absurd h (by simp)
  | cons c t ih =>
    intro a b h
    simp only [splitFirst] at h
    by_cases hp : sep.isPrefixOf (c :: t) = true
    · rw [if_pos hp] at h
      simp only [Option.some.injEq, Prod.mk.injEq] at h
      obtain ⟨ha, hb⟩ := h
      obtain ⟨r, hr⟩ := (isPrefixOf_true_exists sep (c :: t)).mp hp
      have hbr : b = r := by rw [← hb, ← hr, List.drop_left]
      rw [← ha, hbr, ← hr]
      simp
    · rw [if_neg hp] at h
      cases hsp : splitFirst sep t with
      | none => rw [hsp] at h; exact absurd h (by simp)
      | some p =>
        obtain ⟨a0, b0⟩ := p
        rw [hsp] at h
        simp only [Option.some.injEq, Prod.mk.injEq] at h
        obtain ⟨ha, hb⟩ := h
        rw [← ha, ← hb, ih a0 b0 hsp]
        simp

/-- Completeness of the first-occurrence split: when the separator occurs
the split succeeds. -/
lemma splitFirst_isSome (sep : List Char) :
    ∀ a b : List Char, (splitFirst sep (a ++ sep ++ b)).isSome = true := by
  intro a
  induction a with
  | nil =>
    intro b
    have hp : sep.isPrefixOf (sep ++ b) = true :=
      (isPrefixOf_true_exists sep (sep ++ b)).mpr ⟨b, rfl⟩
    simp only [List.nil_append]
    cases hs : sep ++ b with
    | nil =>
      have hsep : sep = [] := by
        cases sep with
        | nil => rfl
        | cons x xs => simp at hs
      subst hsep
      rfl
    | cons c cs =>
      simp only [splitFirst]
      rw [if_pos (by rw [← hs]; exact hp)]
      rfl
  | cons c a' ih =>
    intro b
    simp only [List.cons_append]
    simp only [splitFirst]
    by_cases hp : sep.isPrefixOf (c :: (a' ++ sep ++ b)) = true
    · rw [if_pos hp]
      rfl
    · rw [if_neg hp]
      have hrec := ih b
      cases hsp : splitFirst sep (a' ++ sep ++ b) with
      | none => rw [hsp] at hrec; simp at hrec
      | some p =>
        obtain ⟨a0, b0⟩ := p
        rfl

/-- Minimality of the first-occurrence split: the returned head part is
no longer than any decomposition's head part. -/
lemma splitFirst_min (sep : List Char) :
    ∀ s a2 b2 : List Char, splitFirst sep s = some (a2, b2) →
      ∀ a b : List Char, s = a ++ sep ++ b → a2.length ≤ a.length := by
  intro s
  induction s with
  | nil =>
    intro a2 b2 h a b hs
    simp only [splitFirst] at h
    by_cases hp : sep.isPrefixOf ([] : List Char) = true
    · rw [if_pos hp] at h
      simp only [Option.some.injEq, Prod.mk.injEq] at h
      obtain ⟨ha, _⟩ := h
      simp [← ha]
    · rw [if_neg hp] at h
      exact absurd h (by simp)
  | cons c t ih =>
    intro a2 b2 h a b hs
    simp only [splitFirst] at h
    by_cases hp : sep.isPrefixOf (c :: t) = true
    · rw [if_pos hp] at h
      simp only [Option.some.injEq, Prod.mk.injEq] at h
      obtain ⟨ha, _⟩ := h
      simp [← ha]
    · rw [if_neg hp] at h
      cases hsp : splitFirst sep t with
      | none => rw [hsp] at h; exact absurd h (by simp)
      | some p =>
        obtain ⟨a0, b0⟩ := p
        rw [hsp] at h
        simp only [Option.some.injEq, Prod.mk.injEq] at h
        obtain ⟨ha, _⟩ := h
        cases a with
        | nil =>
          exfalso
          apply hp
          apply (isPrefixOf_true_exists sep (c :: t)).mpr
          exact ⟨b, by simpa using hs.symm⟩
        | cons c2 a3 =>
          simp only [List.cons_append, List.cons.injEq] at hs
          obtain ⟨_, h2⟩ := hs
          have := ih a0 b0 hsp a3 b h2
          rw [← ha]
          simp only [List.length_cons]
          omega

/-- After splitting at the first open tag, a close tag known to occur
after some no-earlier open-tag occurrence still occurs in the
remainder. -/
lemma exists_close_in_rest {a1 openT b1 pre mid closeT post : List Char}
    (hs : a1 ++ openT ++ b1 = pre ++ openT ++ mid ++ closeT ++ post)
    (hle : a1.length ≤ pre.length) :
    ∃ x y, b1 = x ++ closeT ++ y := by
  have hb : b1 = (a1 ++ openT ++ b1).drop (a1 ++ openT).length := by
    rw [List.drop_left]
  rw [hs] at hb
  have hgroup : pre ++ openT ++ mid ++ closeT ++ post
      = ((pre ++ openT) ++ mid) ++ (closeT ++ post) := by simp [List.append_assoc]
  rw [hgroup] at hb
  have hklen : (a1 ++ openT).length ≤ ((pre ++ openT) ++ mid).length := by
    simp only [List.length_append]
    omega
  rw [List.drop_append_of_le_length hklen] at hb
  refine ⟨((pre ++ openT) ++ mid).drop (a1 ++ openT).length, post, ?_⟩
  rw [hb]
  simp [List.append_assoc]

/-- Claim C6: found is true exactly when some open-tag ... close-tag span
occurs in the text; when nothing is found the content list is empty;
empty input yields no content and found false; and on the two-occurrence
example the trimmed contents come back in order of appearance. -/
theorem extract_tag_content_spec (text tag : String) :
    ((extract_tag_content text tag).found = true ↔
      ∃ pre mid post, text.data = pre ++ openTagOf tag ++ mid ++ closeTagOf tag ++ post) ∧
    ((extract_tag_content text tag).found = false → (extract_tag_content text tag).content = []) ∧
    ((extract_tag_content "" tag).content = [] ∧ (extract_tag_content "" tag).found = false) ∧
    ((extract_tag_content "<a>x</a><a>y</a>" "a").content = [ "x", "y"] ∧
      (extract_tag_content "<a>x</a><a>y</a>" "a").found = true) := by
  refine ⟨⟨?_, ?_⟩, ?_, ⟨rfl, rfl⟩, by decide, by decide⟩
  · intro hf
    have hne : re_findall (openTagOf tag) (closeTagOf tag) text.data ≠ [] := by
      intro hempty
      have : (extract_tag_content text tag).found
          = !(re_findall (openTagOf tag) (closeTagOf tag) text.data).isEmpty := rfl
      rw [this, hempty] at hf
      simp at hf
    cases h1 : splitFirst (openTagOf tag) text.data with
    | none =>
      exfalso
      apply hne
      show findAllAux (openTagOf tag) (closeTagOf tag) (text.data.length + 1) text.data = []
      simp [findAllAux, h1]
    | some p =>
      obtain ⟨pre0, rest⟩ := p
      cases h2 : splitFirst (closeTagOf tag) rest with
      | none =>
        exfalso
        apply hne
        show findAllAux (openTagOf tag) (closeTagOf tag) (text.data.length + 1) text.data = []
        simp [findAllAux, h1, h2]
      | some q =>
        obtain ⟨mid0, rest2⟩ := q
        have e1 := splitFirst_sound (openTagOf tag) text.data pre0 rest h1
        have e2 := splitFirst_sound (closeTagOf tag) rest mid0 rest2 h2
        refine ⟨pre0, mid0, rest2, ?_⟩
        rw [e1, e2]
        simp [List.append_assoc]
  · rintro ⟨pre, mid, post, hdec⟩
    have h1 : (splitFirst (openTagOf tag) text.data).isSome = true := by
      have hx := splitFirst_isSome (openTagOf tag) pre (mid ++ closeTagOf tag ++ post)
      rw [show pre ++ openTagOf tag ++ (mid ++ closeTagOf tag ++ post)
          = pre ++ openTagOf tag ++ mid ++ closeTagOf tag ++ post by simp [List.append_assoc]] at hx
      rw [hdec]
      exact hx
    obtain ⟨⟨a1, b1⟩, heq1⟩ := Option.isSome_iff_exists.mp h1
    have hs1 := splitFirst_sound (openTagOf tag) text.data a1 b1 heq1
    have hmin := splitFirst_min (openTagOf tag) text.data a1 b1 heq1 pre
      (mid ++ closeTagOf tag ++ post)
      (by rw [hdec]; simp [List.append_assoc])
    have hs2 : a1 ++ openTagOf tag ++ b1
        = pre ++ openTagOf tag ++ mid ++ closeTagOf tag ++ post := by
      rw [← hdec]
      exact hs1.symm
    have hmid : ∃ x y, b1 = x ++ closeTagOf tag ++ y := exists_close_in_rest hs2 hmin
    obtain ⟨x, y, hb1⟩ := hmid
    have h2 : (splitFirst (closeTagOf tag) b1).isSome = true := by
      rw [hb1]
      exact splitFirst_isSome (closeTagOf tag) x y
    obtain ⟨⟨m2, r2⟩, heq2⟩ := Option.isSome_iff_exists.mp h2
    show (!(re_findall (openTagOf tag) (closeTagOf tag) text.data).isEmpty) = true
    rw [show re_findall (openTagOf tag) (closeTagOf tag) text.data
        = findAllAux (openTagOf tag) (closeTagOf tag) (text.data.length + 1) text.data from rfl]
    simp [findAllAux, heq1, heq2]
  · intro hf
    have hrw : (extract_tag_content text tag).found
        = !(re_findall (openTagOf tag) (closeTagOf tag) text.data).isEmpty := rfl
    rw [hrw] at hf
    have hempty : re_findall (openTagOf tag) (closeTagOf tag) text.data = [] := by
      simpa using hf
    show (re_findall (openTagOf tag) (closeTagOf tag) text.data).map
        (fun c => String.mk (pyStrip c)) = []
    rw [hempty]
    rfl

/-- Witness for C6: the no-match implication at a concrete input together
with the two-occurrence example, both through the main theorem. -/
theorem extract_tag_content_spec_witness :
    (extract_tag_content "no tags here" "thought").content = [] ∧
    (extract_tag_content "<a>x</a><a>y</a>" "a").content = [ "x", "y"] :=
  ⟨(extract_tag_content_spec "no tags here" "thought").2.1 (by decide),
   (extract_tag_content_spec "<a>x</a><a>y</a>" "a").2.2.2.1⟩
